import Mathlib

/-!
Shallow embedding of the bank send-keeper of this repository
(x/bank/keeper send logic, genesis import) together with the parts of the
cosmos-sdk coin/decimal library that the keeper code uses.

Store model: every persisted store (balances, supply, liquidity pool,
fee-tax pool) is an ordered association list keyed by strings (resp. pairs
of strings), mirroring the ordered byte-keyed KV store of the SDK.  `set`
inserts in key order or overwrites, `delete` removes the key, so equality
of association lists is byte-for-byte equality of the underlying store.
-/

/-- A coin: denomination plus arbitrary-precision integer amount
(`sdk.Coin`; `sdk.Int` is modelled as `Int`, overflow at 2^256 is out of
scope for the inputs considered here). -/
structure Coin where
  denom : String
  amount : Int
deriving DecidableEq, Repr

/-- A coin list (`sdk.Coins`); valid values are sorted by denomination with
unique denominations and positive amounts. -/
abbrev Coins := List Coin

/-- Errors returned by the keeper functions (the `sdkerrors` kinds the
embedded code wraps). -/
inductive BankErr where
  | invalidCoins
  | insufficientFunds
  | sendDisabled (denom : String)
  | inputOutputMismatch
  | invalidAddress
deriving DecidableEq, Repr

/-- The kinds of Go `panic` the embedded code can raise. -/
inductive FatalKind where
  | invalidCoin
  | negativeCoin
  | unknownModuleAccount
  | missingBurnPermission
  | genesisInvalid
deriving DecidableEq, Repr

/-- Outcome of a keeper call: normal result, returned error, or Go panic. -/
inductive Res (α : Type) where
  | ok (a : α)
  | err (e : BankErr)
  | fatal (k : FatalKind)
deriving DecidableEq, Repr

/-! ## Fixed-point decimals (`sdk.Dec`, 18 fractional digits) -/

/-- Decimal scale used by `sdk.Dec` (`precision = 18`). -/
def decPrec : Nat := 10 ^ 18

/-- Rounding step of `sdk.Dec` multiplication on a non-negative scaled
integer: divide by `10^18`, round half to even (`chopPrecisionAndRound`,
non-negative branch). -/
def chopRoundNat (n : Nat) : Nat :=
  let quo := n / decPrec
  let rem := n % decPrec
  if rem = 0 then quo
  else if rem * 2 < decPrec then quo
  else if decPrec < rem * 2 then quo + 1
  else if quo % 2 = 0 then quo else quo + 1

/-- Embeds `chopPrecisionAndRound`: negative values are rounded on the absolute
value and the sign restored, as in the Go source. -/
def chopRound (d : Int) : Int :=
  if d < 0 then -(Int.ofNat (chopRoundNat (-d).toNat))
  else Int.ofNat (chopRoundNat d.toNat)

/-- Embeds `chopPrecisionAndTruncate`: truncation toward zero of a scaled value. -/
def chopTrunc (d : Int) : Int :=
  if d < 0 then -(Int.ofNat ((-d).toNat / decPrec))
  else Int.ofNat (d.toNat / decPrec)

/-- Embeds `sdk.Dec`: a decimal is a scaled integer `i / 10^18`. -/
structure Dec where
  i : Int
deriving DecidableEq, Repr

/-- Embeds `sdk.NewDecFromInt`. -/
def newDecFromInt (a : Int) : Dec := ⟨a * (decPrec : Int)⟩

/-- Embeds `Dec.Mul`: multiply the scaled integers and chop with rounding. -/
def decMul (x y : Dec) : Dec := ⟨chopRound (x.i * y.i)⟩

/-- Embeds `Dec.TruncateInt`: truncate the decimal toward zero to an integer. -/
def truncateInt (x : Dec) : Int := chopTrunc x.i

/-! ## Denomination and coin validity (`sdk/types/coin.go`) -/

/-- Characters allowed after the leading letter of a denomination
(`reDnmString = [a-zA-Z][a-zA-Z0-9/:._-]{2,127}`). -/
def isDenomChar (c : Char) : Bool :=
  c.isAlpha || c.isDigit || c = '/' || c = ':' || c = '.' || c = '_' || c = '-'

/-- Embeds `sdk.ValidateDenom` as a Bool: matches the denomination regular
expression. -/
def validDenom (d : String) : Bool :=
  match d.data with
  | [] => false
  | c :: cs => c.isAlpha && cs.all isDenomChar && 3 ≤ d.length && d.length ≤ 128

/-- Embeds `Coin.Validate` as a Bool: valid denomination and non-negative amount. -/
def coinIsValid (c : Coin) : Bool :=
  validDenom c.denom && 0 ≤ c.amount

/-- Embeds `Coin.IsZero`. -/
def coinIsZero (c : Coin) : Bool := c.amount = 0

/-- Embeds `sdk.NewCoin`: panics (models the Go panic) when the denomination is
invalid or the amount negative. -/
def newCoin (denom : String) (amount : Int) : Res Coin :=
  if validDenom denom && 0 ≤ amount then .ok ⟨denom, amount⟩
  else .fatal .invalidCoin

/-- Embeds `Coin.Add` (call sites in the embedded code always add coins of the
same denomination; the Go source panics otherwise). -/
def coinAdd (a b : Coin) : Coin := ⟨a.denom, a.amount + b.amount⟩

/-- Embeds `Coin.Sub`: panics when the denominations differ or the result would
be negative, as in the Go source. -/
def coinSub (a b : Coin) : Res Coin :=
  if a.denom = b.denom then
    if a.amount - b.amount < 0 then .fatal .negativeCoin
    else .ok ⟨a.denom, a.amount - b.amount⟩
  else .fatal .negativeCoin

/-- Embeds `Coin.IsEqual`: same denomination and same amount.  (The Go source
panics when the denominations differ; both a `false` here and that panic
lead to the same fatal outcome at the call sites used below.) -/
def coinIsEqual (a b : Coin) : Bool :=
  a.denom = b.denom && a.amount = b.amount

/-! ## Coins operations (`sdk/types/coins.go`) -/

/-- Tail check of `Coins.Validate`: denominations valid, strictly
ascending, amounts positive. -/
def coinsIsValidAux (lowDenom : String) : List Coin → Bool
  | [] => true
  | c :: rest =>
    validDenom c.denom && compare lowDenom c.denom = .lt && 0 < c.amount &&
      coinsIsValidAux c.denom rest

/-- Embeds `Coins.IsValid` / `Coins.Validate` as a Bool. -/
def coinsIsValid : Coins → Bool
  | [] => true
  | c :: rest => validDenom c.denom && 0 < c.amount && coinsIsValidAux c.denom rest

/-- Embeds `removeZeroCoins`. -/
def removeZeroCoins (l : Coins) : Coins := l.filter (fun c => ¬ c.amount = 0)

/-- Merge step of `Coins.safeAdd` for a fixed left head `a`, where `f`
adds the remaining left coins: walks the right list while its head
denomination is smaller.  On an empty right list this emits `a` unless it
is zero, matching `removeZeroCoins` on the remaining left coins. -/
def coinsSafeAddAux (a : Coin) (f : Coins → Coins) : Coins → Coins
  | [] => if a.amount = 0 then f [] else a :: f []
  | b :: bs =>
    match compare a.denom b.denom with
    | .lt =>
      if a.amount = 0 then f (b :: bs)
      else a :: f (b :: bs)
    | .eq =>
      if a.amount + b.amount = 0 then f bs
      else ⟨a.denom, a.amount + b.amount⟩ :: f bs
    | .gt =>
      if b.amount = 0 then coinsSafeAddAux a f bs
      else b :: coinsSafeAddAux a f bs

/-- Embeds `Coins.safeAdd`: merge two denomination-sorted coin lists, adding
amounts of equal denominations and dropping zero coins. -/
def coinsSafeAdd : Coins → Coins → Coins
  | [], b => removeZeroCoins b
  | a :: as_, b => coinsSafeAddAux a (coinsSafeAdd as_) b

/-- Embeds `Coins.Add` (variadic add is `safeAdd`). -/
def coinsAdd (a b : Coins) : Coins := coinsSafeAdd a b

/-- Embeds `Coins.negative`. -/
def coinsNegative (l : Coins) : Coins := l.map (fun c => ⟨c.denom, -c.amount⟩)

/-- Embeds `Coins.IsAnyNegative`. -/
def coinsIsAnyNegative (l : Coins) : Bool := l.any (fun c => c.amount < 0)

/-- Embeds `Coins.SafeSub`: difference plus the `hasNeg` flag. -/
def coinsSafeSub (a b : Coins) : Coins × Bool :=
  let diff := coinsSafeAdd a (coinsNegative b)
  (diff, coinsIsAnyNegative diff)

/-- Embeds `Coins.IsZero`: every coin has amount zero. -/
def coinsIsZero (l : Coins) : Bool := l.all (fun c => c.amount = 0)

/-- Embeds `Coins.Empty`. -/
def coinsEmpty (l : Coins) : Bool := l.isEmpty

/-- Embeds `Coins.AmountOf`: amount of the given denomination, zero when absent
(the Go binary search over a sorted unique list has this semantics). -/
def coinsAmountOf (l : Coins) (denom : String) : Int :=
  match l.find? (fun c => c.denom = denom) with
  | some c => c.amount
  | none => 0

/-- Insertion step of `Coins.Sort` (sort by denomination). -/
def coinsInsert (c : Coin) : Coins → Coins
  | [] => [c]
  | d :: rest =>
    match compare c.denom d.denom with
    | .gt => d :: coinsInsert c rest
    | _ => c :: d :: rest

/-- Embeds `Coins.Sort`. -/
def coinsSort : Coins → Coins
  | [] => []
  | c :: rest => coinsInsert c (coinsSort rest)

/-- Embeds `Coins.IsEqual`: equal lengths and pairwise equal after sorting. -/
def coinsIsEqual (a b : Coins) : Bool :=
  if a.length = b.length then
    List.all (List.zip (coinsSort a) (coinsSort b)) (fun p => coinIsEqual p.1 p.2)
  else false

/-! ## Ordered association-list stores -/

/-- Lookup in a store. -/
def storeGet {κ : Type} [DecidableEq κ] (s : List (κ × Int)) (k : κ) : Option Int :=
  match s.find? (fun p => p.1 = k) with
  | some p => some p.2
  | none => none

/-- Ordered insert/overwrite in a store (the KV store keeps keys sorted). -/
def storeSet {κ : Type} [DecidableEq κ] (lt : κ → κ → Bool) :
    List (κ × Int) → κ → Int → List (κ × Int)
  | [], k, v => [(k, v)]
  | (k', v') :: rest, k, v =>
    if lt k k' then (k, v) :: (k', v') :: rest
    else if k = k' then (k, v) :: rest
    else (k', v') :: storeSet lt rest k v

/-- Delete a key from a store. -/
def storeDel {κ : Type} [DecidableEq κ] (s : List (κ × Int)) (k : κ) : List (κ × Int) :=
  s.filter (fun p => ¬ p.1 = k)

/-- Order on string keys (byte order of the KV store). -/
def strLt (a b : String) : Bool := compare a b = .lt

/-- Lexicographic order on (address, denomination) balance keys, matching
the layout `balance/{addressBytes}/{denom}`. -/
def keyLt (a b : String × String) : Bool :=
  compare a.1 b.1 = .lt || (a.1 = b.1 && compare a.2 b.2 = .lt)

/-! ## Parameters and collaborators

The bank parameter logic lives in `x/bank/types` (the params part of
`proposal.go`): `Params.SendEnabledDenom`, the whitelist methods of
`SupportDeflationary`, and the validators attesting every field of the
parameter structs.  The proto-generated struct declarations themselves
and the view-keeper helpers (`GetBalance`, `LockedCoins`,
`GetAllBalances`) are not under the shown sources; struct fields are
taken from the shown accessors/validators, the view-keeper reads are
modelled from the spec. -/

/-- Embeds `types.SendEnabled`: a per-denomination send-enabled override.
Fields `Denom`/`Enabled` as in `NewSendEnabled` and `validateSendEnabled`
(`x/bank/types`, proposal.go 200-225). -/
structure SendEnabled where
  denom : String
  enabled : Bool
deriving DecidableEq, Repr

/-- Embeds `types.SupportDeflationary`, a per-denomination deflationary
rule.  Fields `Denom`, `Enabled`, `BurnPercent`, `LiquidityPercent`,
`FeeTaxPercent`, `WhitelistedFrom`, `WhitelistedTo` as attested by
`validateSupportDeflationary` (`x/bank/types`, proposal.go 281-314) and
the whitelist methods (263-279). -/
structure Deflationary where
  denom : String
  enabled : Bool
  burnPercent : Dec
  liquidityPercent : Dec
  feeTaxPercent : Dec
  whitelistedFrom : List String
  whitelistedTo : List String
deriving DecidableEq, Repr

/-- Embeds `SupportDeflationary.IsWhitelistedFrom` (`x/bank/types`,
proposal.go 272-279): membership in the whitelisted-from address set. -/
def Deflationary.isWhitelistedFrom (d : Deflationary) (addr : String) : Bool :=
  d.whitelistedFrom.contains addr

/-- Embeds `SupportDeflationary.IsWhitelistedTo` (`x/bank/types`,
proposal.go 263-270): membership in the whitelisted-to address set. -/
def Deflationary.isWhitelistedTo (d : Deflationary) (addr : String) : Bool :=
  d.whitelistedTo.contains addr

/-- Embeds `types.Params`: per-denomination overrides, global default
send-enabled flag, deflationary rules.  Fields as in `NewParams`
(`x/bank/types`, proposal.go 109-115). -/
structure Params where
  sendEnabled : List SendEnabled
  defaultSendEnabled : Bool
  supportDeflationary : List Deflationary
deriving Repr

/-- Embeds `Params.SendEnabledDenom` (`x/bank/types`, proposal.go
144-152): the first entry for the denomination decides, the global
default otherwise. -/
def Params.sendEnabledDenom (p : Params) (denom : String) : Bool :=
  match p.sendEnabled.find? (fun se => se.denom = denom) with
  | some se => se.enabled
  | none => p.defaultSendEnabled

/-- A module account as seen through the account keeper: its bech32
address and its permission list (e.g. `authtypes.Burner`). -/
structure ModuleAccount where
  address : String
  permissions : List String
deriving DecidableEq, Repr

/-- Embeds `authtypes.Burner`. -/
def burnerPermission : String := "burner"

/-- Embeds `types.ModuleName` of the bank module. -/
def moduleName : String := "bank"

/-- Read-only collaborators of the send keeper: the parameter subspace,
the locked-funds source (`LockedCoins`, treated as an external
collaborator per the spec) and the account keeper's module-account
table. -/
structure Env where
  params : Params
  locked : String → Coins
  moduleAccounts : String → Option ModuleAccount

/-- The persisted bank stores: balances (keyed by address and
denomination), supply, liquidity pool and fee-tax pool (keyed by
denomination), plus the account-existence collaborator's account set and
the denomination-metadata keys (contents out of scope). -/
structure BankState where
  balances : List ((String × String) × Int)
  supply : List (String × Int)
  liquidityPool : List (String × Int)
  feeTaxPool : List (String × Int)
  accounts : List String
  metadata : List String
deriving DecidableEq, Repr

/-! ## View-keeper reads (modelled from the spec: absence = zero) -/

/-- Modelled from the spec: `GetBalance` — the stored balance of the
address for the denomination, a zero coin when the key is absent. -/
def getBalance (st : BankState) (addr denom : String) : Coin :=
  ⟨denom, (storeGet st.balances (addr, denom)).getD 0⟩

/-- Modelled from the spec: `GetAllBalances` — all coins of one address,
in store (denomination) order. -/
def getAllBalances (st : BankState) (addr : String) : Coins :=
  (st.balances.filter (fun p => p.1.1 = addr)).map (fun p => ⟨p.1.2, p.2⟩)

/-- Embeds `sdk.AccAddressFromBech32`: the source rejects the empty string;
bech32 checksum validation is abstracted, other strings decode to
themselves. -/
def accAddressFromBech32 (s : String) : Res String :=
  if s = "" then .err .invalidAddress else .ok s

/-! ## Store writers (`send.go` 326-342, 428-443, 490-505, 552-567) -/

/-- Embeds `setBalance` (`send.go` 326): rejects an invalid coin, deletes the
key on a zero balance, stores the amount otherwise. -/
def setBalance (st : BankState) (addr : String) (balance : Coin) :
    Res Unit × BankState :=
  if ¬ coinIsValid balance then (.err .invalidCoins, st)
  else if coinIsZero balance then
    (.ok (), { st with balances := storeDel st.balances (addr, balance.denom) })
  else
    (.ok (), { st with balances := storeSet keyLt st.balances (addr, balance.denom) balance.amount })

/-- Embeds `getSupply` (`send.go` 403): zero coin when the key is absent. -/
def getSupply (st : BankState) (denom : String) : Coin :=
  ⟨denom, (storeGet st.supply denom).getD 0⟩

/-- Embeds `setSupply` (`send.go` 428): deletes the key on a zero coin, stores
the amount otherwise. -/
def setSupply (st : BankState) (coin : Coin) : BankState :=
  if coinIsZero coin then { st with supply := storeDel st.supply coin.denom }
  else { st with supply := storeSet strLt st.supply coin.denom coin.amount }

/-- Embeds `getLiquidityPool` (`send.go` 466): zero coin when absent. -/
def getLiquidityPool (st : BankState) (denom : String) : Coin :=
  ⟨denom, (storeGet st.liquidityPool denom).getD 0⟩

/-- Embeds `setLiquidityPool` (`send.go` 490): deletes the key on a zero coin,
stores the amount otherwise. -/
def setLiquidityPool (st : BankState) (coin : Coin) : BankState :=
  if coinIsZero coin then { st with liquidityPool := storeDel st.liquidityPool coin.denom }
  else { st with liquidityPool := storeSet strLt st.liquidityPool coin.denom coin.amount }

/-- Embeds `getFeeTaxPool` (`send.go` 528): zero coin when absent. -/
def getFeeTaxPool (st : BankState) (denom : String) : Coin :=
  ⟨denom, (storeGet st.feeTaxPool denom).getD 0⟩

/-- Embeds `setFeeTaxPool` (`send.go` 552): deletes the key on a zero coin,
stores the amount otherwise. -/
def setFeeTaxPool (st : BankState) (coin : Coin) : BankState :=
  if coinIsZero coin then { st with feeTaxPool := storeDel st.feeTaxPool coin.denom }
  else { st with feeTaxPool := storeSet strLt st.feeTaxPool coin.denom coin.amount }

/-! ## subUnlockedCoins (`send.go` 187-217) -/

/-- Per-coin loop body of `subUnlockedCoins`: read balance, build the
locked coin, compute spendable, check sufficiency, write the new
balance. -/
def subUnlockedCoinsLoop (env : Env) (addr : String) (lockedCoins : Coins) :
    List Coin → BankState → Res Unit × BankState
  | [], st => (.ok (), st)
  | coin :: rest, st =>
    let balance := getBalance st addr coin.denom
    match newCoin coin.denom (coinsAmountOf lockedCoins coin.denom) with
    | .err e => (.err e, st)
    | .fatal k => (.fatal k, st)
    | .ok locked =>
      match coinSub balance locked with
      | .err e => (.err e, st)
      | .fatal k => (.fatal k, st)
      | .ok spendable =>
        if (coinsSafeSub [spendable] [coin]).2 then (.err .insufficientFunds, st)
        else
          match coinSub balance coin with
          | .err e => (.err e, st)
          | .fatal k => (.fatal k, st)
          | .ok newBalance =>
            match setBalance st addr newBalance with
            | (.ok _, st') => subUnlockedCoinsLoop env addr lockedCoins rest st'
            | (.err e, st') => (.err e, st')
            | (.fatal k, st') => (.fatal k, st')

/-- Embeds `subUnlockedCoins` (`send.go` 187): validity check, then the per-coin
debit loop over the requested coins. -/
def subUnlockedCoins (env : Env) (st : BankState) (addr : String) (amt : Coins) :
    Res Unit × BankState :=
  if ¬ coinsIsValid amt then (.err .invalidCoins, st)
  else subUnlockedCoinsLoop env addr (env.locked addr) amt st

/-! ## addCoins (`send.go` 282-303) -/

/-- Per-coin loop body of `addCoins`. -/
def addCoinsLoop (addr : String) : List Coin → BankState → Res Unit × BankState
  | [], st => (.ok (), st)
  | coin :: rest, st =>
    let balance := getBalance st addr coin.denom
    let newBalance := coinAdd balance coin
    match setBalance st addr newBalance with
    | (.ok _, st') => addCoinsLoop addr rest st'
    | (.err e, st') => (.err e, st')
    | (.fatal k, st') => (.fatal k, st')

/-- Embeds `addCoins` (`send.go` 282): validity check, then credit each coin. -/
def addCoins (st : BankState) (addr : String) (amt : Coins) : Res Unit × BankState :=
  if ¬ coinsIsValid amt then (.err .invalidCoins, st)
  else addCoinsLoop addr amt st

/-! ## burnCoins (`send.go` 370-400) -/

/-- Supply-decrement loop of `burnCoins` (`send.go` 385-389):
`supply = supply.Sub(amount)` panics on a negative result. -/
def burnSupplyLoop : List Coin → BankState → Res Unit × BankState
  | [], st => (.ok (), st)
  | amount :: rest, st =>
    match coinSub (getSupply st amount.denom) amount with
    | .err e => (.err e, st)
    | .fatal k => (.fatal k, st)
    | .ok supply => burnSupplyLoop rest (setSupply st supply)

/-- Embeds `burnCoins` (`send.go` 370): module-account and burner-capability
checks (panics on failure), debit of the module account, then the supply
decrement loop. -/
def burnCoins (env : Env) (st : BankState) (moduleNameArg : String) (amounts : Coins) :
    Res Unit × BankState :=
  match env.moduleAccounts moduleNameArg with
  | none => (.fatal .unknownModuleAccount, st)
  | some acc =>
    if ¬ acc.permissions.contains burnerPermission then (.fatal .missingBurnPermission, st)
    else
      match subUnlockedCoins env st acc.address amounts with
      | (.ok _, st') => burnSupplyLoop amounts st'
      | (.err e, st') => (.err e, st')
      | (.fatal k, st') => (.fatal k, st')

/-! ## Deflationary split (`send.go` 219-278) -/

/-- Whether one deflationary rule applies to this transfer
(`send.go` 232: enabled, denomination matches, sender not whitelisted-from,
recipient whitelisted-to). -/
def deflMatch (r : Deflationary) (from_ to_ denom : String) : Bool :=
  r.enabled && r.denom = denom && !(r.isWhitelistedFrom from_) && r.isWhitelistedTo to_

/-- Inner rule loop of `deflationaryCoins` (`send.go` 230-238): folds over
`params.SupportDeflationary`; a matching rule sets the flag and assigns
the three portion amounts.  As in the Go source, every one of
`burnAmount`, `liquidityAmount`, `feeTarAmount` is assigned
`amount × LiquidityPercent` truncated; the initial zero models the
Go zero values, which are only read when the flag is set. -/
def deflPortions (rules : List Deflationary) (from_ to_ : String) (c : Coin) :
    Bool × Int × Int × Int :=
  rules.foldl
    (fun acc r =>
      if deflMatch r from_ to_ c.denom then
        (true,
          truncateInt (decMul (newDecFromInt c.amount) r.liquidityPercent),
          truncateInt (decMul (newDecFromInt c.amount) r.liquidityPercent),
          truncateInt (decMul (newDecFromInt c.amount) r.liquidityPercent))
      else acc)
    (false, 0, 0, 0)

/-- Index loop of `deflationaryCoins` (`send.go` 225-259).  Returns the
rewritten transfer coins together with the accumulated burn, liquidity
and fee-tax coin lists.  For a matching coin the source replaces `amt[i]`
by the net amount (`sdk.NewCoin` panics when it is negative) and, for a
positive liquidity or fee-tax portion, reads the corresponding pool coin
and writes it back: the Go source computes `pool.Amount.Add(portion)` but
discards the result, so the value written back is the unchanged pool
coin. -/
def deflLoop (env : Env) (from_ to_ : String) :
    List Coin → BankState → Res (Coins × Coins × Coins × Coins) × BankState
  | [], st => (.ok ([], [], [], []), st)
  | c :: rest, st =>
    match deflPortions env.params.supportDeflationary from_ to_ c with
    | (isDefl, burnAmount, liquidityAmount, feeTarAmount) =>
      if ¬ isDefl then
        match deflLoop env from_ to_ rest st with
        | (.ok (amt', bs, ls, fs), st') => (.ok (c :: amt', bs, ls, fs), st')
        | (.err e, st') => (.err e, st')
        | (.fatal k, st') => (.fatal k, st')
      else
        match newCoin c.denom burnAmount with
        | .err e => (.err e, st)
        | .fatal k => (.fatal k, st)
        | .ok burnC =>
          match newCoin c.denom liquidityAmount with
          | .err e => (.err e, st)
          | .fatal k => (.fatal k, st)
          | .ok liqC =>
            match newCoin c.denom feeTarAmount with
            | .err e => (.err e, st)
            | .fatal k => (.fatal k, st)
            | .ok feeC =>
              match newCoin c.denom (c.amount - burnAmount - liquidityAmount - feeTarAmount) with
              | .err e => (.err e, st)
              | .fatal k => (.fatal k, st)
              | .ok netC =>
                let st1 :=
                  if 0 < liquidityAmount then
                    setLiquidityPool st (getLiquidityPool st c.denom)
                  else st
                let st2 :=
                  if 0 < feeTarAmount then
                    setFeeTaxPool st1 (getFeeTaxPool st1 c.denom)
                  else st1
                match deflLoop env from_ to_ rest st2 with
                | (.ok (amt', bs, ls, fs), st') =>
                  (.ok (netC :: amt', burnC :: bs, liqC :: ls, feeC :: fs), st')
                | (.err e, st') => (.err e, st')
                | (.fatal k, st') => (.fatal k, st')

/-- Embeds `deflationaryCoins` (`send.go` 219): run the index loop, then the
unconditional module-account lookup (panic when absent), the transfer of
the combined portions to the module account, and the burn.  Returns the
rewritten (net) transfer coins. -/
def deflationaryCoins (env : Env) (st : BankState) (from_ to_ : String) (amt : Coins) :
    Res Coins × BankState :=
  match deflLoop env from_ to_ amt st with
  | (.err e, st') => (.err e, st')
  | (.fatal k, st') => (.fatal k, st')
  | (.ok (amt', burnCs, liqCs, feeCs), st') =>
    match env.moduleAccounts moduleName with
    | none => (.fatal .unknownModuleAccount, st')
    | some recipientAcc =>
      let totalCoins := coinsAdd (coinsAdd burnCs liqCs) feeCs
      if coinsIsZero totalCoins then (.ok amt', st')
      else
        match addCoins st' recipientAcc.address totalCoins with
        | (.err e, st'') => (.err e, st'')
        | (.fatal k, st'') => (.fatal k, st'')
        | (.ok _, st'') =>
          if coinsIsZero burnCs then (.ok amt', st'')
          else
            match burnCoins env st'' moduleName burnCs with
            | (.ok _, st3) => (.ok amt', st3)
            | (.err e, st3) => (.err e, st3)
            | (.fatal k, st3) => (.fatal k, st3)

/-! ## SendCoins (`send.go` 143-182) -/

/-- Embeds `SendCoins` (`send.go` 143): debit the sender, run the deflationary
split, credit the recipient with the net coins, create the recipient
account when absent. -/
def sendCoins (env : Env) (st : BankState) (from_ to_ : String) (amt : Coins) :
    Res Unit × BankState :=
  match subUnlockedCoins env st from_ amt with
  | (.err e, st1) => (.err e, st1)
  | (.fatal k, st1) => (.fatal k, st1)
  | (.ok _, st1) =>
    match deflationaryCoins env st1 from_ to_ amt with
    | (.err e, st2) => (.err e, st2)
    | (.fatal k, st2) => (.fatal k, st2)
    | (.ok sendCs, st2) =>
      match addCoins st2 to_ sendCs with
      | (.err e, st3) => (.err e, st3)
      | (.fatal k, st3) => (.fatal k, st3)
      | (.ok _, st3) =>
        let st4 :=
          if st3.accounts.contains to_ then st3
          else { st3 with accounts := to_ :: st3.accounts }
        (.ok (), st4)

/-! ## InputOutputCoins (`send.go` 77-139) -/

/-- A multi-send input (`types.Input`). -/
structure Input where
  address : String
  coins : Coins
deriving DecidableEq, Repr

/-- A multi-send output (`types.Output`). -/
structure Output where
  address : String
  coins : Coins
deriving DecidableEq, Repr

/-- Modelled from the spec: total of all input coin lists, as summed by
`types.ValidateInputsOutputs` (not under the shown sources). -/
def totalInputCoins (inputs : List Input) : Coins :=
  inputs.foldl (fun acc i => coinsAdd acc i.coins) []

/-- Modelled from the spec: total of all output coin lists. -/
def totalOutputCoins (outputs : List Output) : Coins :=
  outputs.foldl (fun acc o => coinsAdd acc o.coins) []

/-- Modelled from the spec: `types.ValidateInputsOutputs` — "validates
that the multiset of input amounts equals the multiset of output
amounts"; an error when the sums differ. -/
def validateInputsOutputs (inputs : List Input) (outputs : List Output) :
    Option BankErr :=
  if coinsIsEqual (totalInputCoins inputs) (totalOutputCoins outputs) then none
  else some .inputOutputMismatch

/-- Input loop of `InputOutputCoins` (`send.go` 84-101): decode each
input address and debit its coins. -/
def inputsLoop (env : Env) : List Input → BankState → Res Unit × BankState
  | [], st => (.ok (), st)
  | i :: rest, st =>
    match accAddressFromBech32 i.address with
    | .err e => (.err e, st)
    | .fatal k => (.fatal k, st)
    | .ok inAddress =>
      match subUnlockedCoins env st inAddress i.coins with
      | (.ok _, st') => inputsLoop env rest st'
      | (.err e, st') => (.err e, st')
      | (.fatal k, st') => (.fatal k, st')

/-- Output loop of `InputOutputCoins` (`send.go` 103-136): decode each
output address, run the deflationary split with an empty sender address
(`sdk.AccAddress{}` renders as the empty string), credit the net coins,
create the account when absent. -/
def outputsLoop (env : Env) : List Output → BankState → Res Unit × BankState
  | [], st => (.ok (), st)
  | o :: rest, st =>
    match accAddressFromBech32 o.address with
    | .err e => (.err e, st)
    | .fatal k => (.fatal k, st)
    | .ok outAddress =>
      match deflationaryCoins env st "" outAddress o.coins with
      | (.err e, st') => (.err e, st')
      | (.fatal k, st') => (.fatal k, st')
      | (.ok sendCs, st') =>
        match addCoins st' outAddress sendCs with
        | (.err e, st'') => (.err e, st'')
        | (.fatal k, st'') => (.fatal k, st'')
        | (.ok _, st'') =>
          let st3 :=
            if st''.accounts.contains outAddress then st''
            else { st'' with accounts := outAddress :: st''.accounts }
          outputsLoop env rest st3

/-- Embeds `InputOutputCoins` (`send.go` 77): validation first, then the input
loop, then the output loop. -/
def inputOutputCoins (env : Env) (st : BankState) (inputs : List Input)
    (outputs : List Output) : Res Unit × BankState :=
  match validateInputsOutputs inputs outputs with
  | some e => (.err e, st)
  | none =>
    match inputsLoop env inputs st with
    | (.err e, st') => (.err e, st')
    | (.fatal k, st') => (.fatal k, st')
    | (.ok _, st') => outputsLoop env outputs st'

/-! ## Send-enabled check and the send entry point -/

/-- Embeds `IsSendEnabledCoins` (`send.go` 347): first coin whose denomination is
not send-enabled yields a `SendDisabled` error naming it. -/
def isSendEnabledCoins (params : Params) : List Coin → Option BankErr
  | [] => none
  | coin :: rest =>
    if ¬ params.sendEnabledDenom coin.denom then some (.sendDisabled coin.denom)
    else isSendEnabledCoins params rest

/-- Modelled from the spec: the send message entry point — "Check every
denomination in `amount` is send-enabled …, aborting before any
mutation", then the `SendCoins` steps (the message server that performs
the check before calling `SendCoins` is not under the shown sources). -/
def sendOperation (env : Env) (st : BankState) (from_ to_ : String) (amt : Coins) :
    Res Unit × BankState :=
  match isSendEnabledCoins env.params amt with
  | some e => (.err e, st)
  | none => sendCoins env st from_ to_ amt

/-! ## Genesis import (`x/bank/keeper/genesis.go` 12-66) -/

/-- A genesis account balance (`types.Balance`). -/
structure Balance where
  address : String
  coins : Coins
deriving DecidableEq, Repr

/-- The genesis state of the bank module (`types.GenesisState`; the
params member is handled by the external parameter subsystem and denom
metadata is tracked by its keys only). -/
structure GenesisState where
  balances : List Balance
  supply : Coins
  liquidityPool : Coins
  feeTaxPool : Coins
  denomMetadata : List String
deriving DecidableEq, Repr

/-- Embeds `initBalances` (`send.go` 307-323): validity check per coin; only
non-zero balances are stored (no delete on zero here). -/
def initBalances (st : BankState) (addr : String) (balances : Coins) :
    Res Unit × BankState :=
  balances.foldl
    (fun (acc : Res Unit × BankState) balance =>
      match acc with
      | (.ok _, st') =>
        if ¬ coinIsValid balance then (.err .invalidCoins, st')
        else if coinIsZero balance then (.ok (), st')
        else (.ok (), { st' with
          balances := storeSet keyLt st'.balances (addr, balance.denom) balance.amount })
      | other => other)
    (.ok (), st)

/-- Insertion step of `SanitizeGenesisBalances` (sort by address). -/
def balancesInsert (b : Balance) : List Balance → List Balance
  | [] => [b]
  | x :: rest =>
    match compare b.address x.address with
    | .gt => x :: balancesInsert b rest
    | _ => b :: x :: rest

/-- Embeds `types.SanitizeGenesisBalances`: sorts the genesis balances by
address. -/
def sanitizeGenesisBalances : List Balance → List Balance
  | [] => []
  | b :: rest => balancesInsert b (sanitizeGenesisBalances rest)

/-- Balance-writing pass of `InitGenesis` (`genesis.go` 18-28): decode
each address (a decode error panics), write the balances, accumulate the
total supply. -/
def initGenesisBalances : List Balance → BankState → Coins →
    Res Coins × BankState
  | [], st, totalSupply => (.ok totalSupply, st)
  | b :: rest, st, totalSupply =>
    match accAddressFromBech32 b.address with
    | .err _ => (.fatal .genesisInvalid, st)
    | .fatal k => (.fatal k, st)
    | .ok addr =>
      match initBalances st addr b.coins with
      | (.ok _, st') => initGenesisBalances rest st' (coinsAdd totalSupply b.coins)
      | (.err _, st') => (.fatal .genesisInvalid, st')
      | (.fatal k, st') => (.fatal k, st')

/-- Embeds `InitGenesis` (`genesis.go` 12-66).  `SetParams` is delegated to the
external parameter subsystem.  Note (`genesis.go` 30-31): the Go source
computes `moduleHoldingsInt.Add(liquidityPool...).Add(feeTaxPool...)` but
discards the result, so `moduleHoldingsInt` stays empty and the supply
check compares the stated supply against the account balances only. -/
def initGenesis (env : Env) (st : BankState) (genState : GenesisState) :
    Res Unit × BankState :=
  match initGenesisBalances (sanitizeGenesisBalances genState.balances) st [] with
  | (.err e, st') => (.err e, st')
  | (.fatal k, st') => (.fatal k, st')
  | (.ok totalSupply0, st') =>
    let moduleHoldingsInt : Coins := []
    let _ := coinsAdd (coinsAdd moduleHoldingsInt genState.liquidityPool) genState.feeTaxPool
    let totalSupply := coinsAdd totalSupply0 moduleHoldingsInt
    if ¬ coinsEmpty genState.supply && ¬ coinsIsEqual genState.supply totalSupply then
      (.fatal .genesisInvalid, st')
    else
      let st1 := totalSupply.foldl (fun s supply => setSupply s supply) st'
      let st2 := genState.feeTaxPool.foldl (fun s feeTax => setFeeTaxPool s feeTax) st1
      let st3 := genState.liquidityPool.foldl (fun s liq => setLiquidityPool s liq) st2
      let st4 := { st3 with metadata := st3.metadata ++ genState.denomMetadata }
      match env.moduleAccounts moduleName with
      | none => (.fatal .unknownModuleAccount, st4)
      | some moduleAcc =>
        let balances := getAllBalances st4 moduleAcc.address
        let st5 :=
          if coinsIsZero balances then
            if st4.accounts.contains moduleAcc.address then st4
            else { st4 with accounts := moduleAcc.address :: st4.accounts }
          else st4
        if ¬ coinsIsEqual balances moduleHoldingsInt then (.fatal .genesisInvalid, st5)
        else (.ok (), st5)

/-! ## Store lemmas -/

theorem storeGet_storeSet_self {κ : Type} [DecidableEq κ] (lt : κ → κ → Bool)
    (s : List (κ × Int)) (k : κ) (v : Int) :
    storeGet (storeSet lt s k v) k = some v := by
  induction s with
  | nil => simp [storeSet, storeGet]
  | cons p rest ih =>
    by_cases hlt : lt k p.1
    · simp [storeSet, hlt, storeGet]
    · by_cases heq : k = p.1
      · simp only [storeSet]
        rw [if_neg hlt, if_pos heq]
        simp [storeGet, List.find?]
      · have hne : ¬ p.1 = k := fun h => heq h.symm
        simp only [storeSet]
        rw [if_neg hlt, if_neg heq]
        simpa [storeGet, List.find?, hne] using ih

theorem storeGet_storeDel_self {κ : Type} [DecidableEq κ]
    (s : List (κ × Int)) (k : κ) :
    storeGet (storeDel s k) k = none := by
  induction s with
  | nil => simp [storeDel, storeGet]
  | cons p rest ih =>
    by_cases h : p.1 = k
    · simpa [storeDel, h] using ih
    · simpa [storeDel, storeGet, List.find?, h] using ih

/-- C9: for every write through `setBalance`, `setSupply`,
`setLiquidityPool` or `setFeeTaxPool`, a zero amount deletes the store
entry and a non-zero amount stores it, so afterwards the entry exists if
and only if the amount is non-zero. -/
theorem zero_never_persisted (st : BankState) (addr : String) (c : Coin)
    (hv : coinIsValid c = true) :
    storeGet (setBalance st addr c).2.balances (addr, c.denom) =
        (if c.amount = 0 then none else some c.amount)
    ∧ storeGet (setSupply st c).supply c.denom =
        (if c.amount = 0 then none else some c.amount)
    ∧ storeGet (setLiquidityPool st c).liquidityPool c.denom =
        (if c.amount = 0 then none else some c.amount)
    ∧ storeGet (setFeeTaxPool st c).feeTaxPool c.denom =
        (if c.amount = 0 then none else some c.amount) := by
  by_cases hz : c.amount = 0
  · refine ⟨?_, ?_, ?_, ?_⟩ <;>
      simp [setBalance, setSupply, setLiquidityPool, setFeeTaxPool, hv,
        coinIsZero, hz, storeGet_storeDel_self]
  · refine ⟨?_, ?_, ?_, ?_⟩ <;>
      simp [setBalance, setSupply, setLiquidityPool, setFeeTaxPool, hv,
        coinIsZero, hz, storeGet_storeSet_self]

/-- Witness for C9 at concrete coins: a zero write removes the entry, a
non-zero write stores it. -/
theorem zero_never_persisted_witness :
    (storeGet (setBalance ⟨[], [], [], [], [], []⟩ "alice" ⟨"foo", 0⟩).2.balances
        ("alice", "foo") = none)
    ∧ (storeGet (setSupply ⟨[], [], [], [], [], []⟩ ⟨"foo", 7⟩).supply "foo" = some 7) := by
  constructor
  · have h := zero_never_persisted ⟨[], [], [], [], [], []⟩ "alice" ⟨"foo", 0⟩ (by decide)
    simpa using h.1
  · have h := zero_never_persisted ⟨[], [], [], [], [], []⟩ "alice" ⟨"foo", 7⟩ (by decide)
    simpa using h.2.1

/-- C7: an `InputOutputCoins` call whose summed inputs differ from its
summed outputs is rejected by the validation with no store mutation. -/
theorem input_output_mismatch_rejected (env : Env) (st : BankState)
    (inputs : List Input) (outputs : List Output)
    (h : coinsIsEqual (totalInputCoins inputs) (totalOutputCoins outputs) = false) :
    inputOutputCoins env st inputs outputs = (.err .inputOutputMismatch, st) := by
  simp [inputOutputCoins, validateInputsOutputs, h]

/-- Witness for C7: one input of 2 foo against no outputs is rejected and
the state is untouched. -/
theorem input_output_mismatch_rejected_witness :
    inputOutputCoins
        ⟨⟨[], true, []⟩, fun _ => [], fun _ => none⟩
        ⟨[(("alice", "foo"), 5)], [], [], [], [], []⟩
        [⟨"alice", [⟨"foo", 2⟩]⟩] [] =
      (.err .inputOutputMismatch, ⟨[(("alice", "foo"), 5)], [], [], [], [], []⟩) :=
  input_output_mismatch_rejected _ _ _ _ (by decide)

/-- The send-enabled loop returns the `SendDisabled` error naming a
denomination of the list whenever some coin's denomination is not
send-enabled. -/
theorem isSendEnabledCoins_some (params : Params) :
    ∀ amt : List Coin, (∃ c ∈ amt, params.sendEnabledDenom c.denom = false) →
      ∃ d, params.sendEnabledDenom d = false ∧ (∃ c ∈ amt, c.denom = d) ∧
        isSendEnabledCoins params amt = some (.sendDisabled d) := by
  intro amt
  induction amt with
  | nil => rintro ⟨c, hc, _⟩; cases hc
  | cons a rest ih =>
    intro h
    by_cases ha : params.sendEnabledDenom a.denom = false
    · exact ⟨a.denom, ha, ⟨a, List.mem_cons_self a rest, rfl⟩, by
        simp [isSendEnabledCoins, ha]⟩
    · have ha' : params.sendEnabledDenom a.denom = true := by
        cases hb : params.sendEnabledDenom a.denom
        · exact absurd hb ha
        · rfl
      obtain ⟨c, hc, hcf⟩ := h
      rcases List.mem_cons.mp hc with hca | hcr
      · rw [hca] at hcf; exact absurd hcf ha
      · obtain ⟨d, hd1, ⟨c', hc', hc'd⟩, hd3⟩ := ih ⟨c, hcr, hcf⟩
        exact ⟨d, hd1, ⟨c', List.mem_cons_of_mem a hc', hc'd⟩, by
          simp [isSendEnabledCoins, ha', hd3]⟩

/-- C5: a send whose amount contains a denomination that is not
send-enabled (override or global default) fails with `SendDisabled`
naming such a denomination, before any store mutation. -/
theorem send_checks_send_enabled_first (env : Env) (st : BankState)
    (from_ to_ : String) (amt : Coins)
    (h : ∃ c ∈ amt, env.params.sendEnabledDenom c.denom = false) :
    ∃ d, env.params.sendEnabledDenom d = false ∧ (∃ c ∈ amt, c.denom = d) ∧
      sendOperation env st from_ to_ amt = (.err (.sendDisabled d), st) := by
  obtain ⟨d, hd1, hd2, hd3⟩ := isSendEnabledCoins_some env.params amt h
  exact ⟨d, hd1, hd2, by simp [sendOperation, hd3]⟩

/-- Witness for C5: sending `foo` while its override disables transfers
fails with `SendDisabled foo` and leaves the state untouched. -/
theorem send_checks_send_enabled_first_witness :
    ∃ d, Params.sendEnabledDenom ⟨[⟨"foo", false⟩], true, []⟩ d = false ∧
      (∃ c ∈ ([⟨"foo", 10⟩] : Coins), c.denom = d) ∧
      sendOperation ⟨⟨[⟨"foo", false⟩], true, []⟩, fun _ => [], fun _ => none⟩
          ⟨[(("alice", "foo"), 50)], [], [], [], [], []⟩ "alice" "bob" [⟨"foo", 10⟩] =
        (.err (.sendDisabled d), ⟨[(("alice", "foo"), 50)], [], [], [], [], []⟩) :=
  send_checks_send_enabled_first
    ⟨⟨[⟨"foo", false⟩], true, []⟩, fun _ => [], fun _ => none⟩
    ⟨[(("alice", "foo"), 50)], [], [], [], [], []⟩ "alice" "bob" [⟨"foo", 10⟩]
    ⟨⟨"foo", 10⟩, by decide, by decide⟩

/-- When no rule of the list matches this transfer, the rule fold leaves
the flag unset and all portions zero. -/
theorem deflPortions_no_match (from_ to_ : String) (c : Coin) :
    ∀ rules : List Deflationary,
      (∀ r ∈ rules, deflMatch r from_ to_ c.denom = false) →
      deflPortions rules from_ to_ c = (false, 0, 0, 0) := by
  have gen : ∀ (rules : List Deflationary) (acc : Bool × Int × Int × Int),
      (∀ r ∈ rules, deflMatch r from_ to_ c.denom = false) →
      rules.foldl
        (fun acc r =>
          if deflMatch r from_ to_ c.denom then
            (true,
              truncateInt (decMul (newDecFromInt c.amount) r.liquidityPercent),
              truncateInt (decMul (newDecFromInt c.amount) r.liquidityPercent),
              truncateInt (decMul (newDecFromInt c.amount) r.liquidityPercent))
          else acc) acc = acc := by
    intro rules
    induction rules with
    | nil => intro acc _; rfl
    | cons r rest ih =>
      intro acc h
      have hr := h r (List.mem_cons_self r rest)
      simp only [List.foldl_cons, hr, if_false, Bool.false_eq_true]
      exact ih acc (fun r' hr' => h r' (List.mem_cons_of_mem r hr'))
  intro rules h
  exact gen rules (false, 0, 0, 0) h

/-- When no rule matches any transferred coin, the index loop of the
deflationary split returns the coins unchanged, empty portion lists, and
an untouched state. -/
theorem deflLoop_no_rule (env : Env) (from_ to_ : String) :
    ∀ (amt : List Coin) (st : BankState),
      (∀ c ∈ amt, ∀ r ∈ env.params.supportDeflationary,
        deflMatch r from_ to_ c.denom = false) →
      deflLoop env from_ to_ amt st = (.ok (amt, [], [], []), st) := by
  intro amt
  induction amt with
  | nil => intro st _; rfl
  | cons c rest ih =>
    intro st h
    have hc := deflPortions_no_match from_ to_ c env.params.supportDeflationary
      (h c (List.mem_cons_self c rest))
    have hrest := ih st (fun c' hc' => h c' (List.mem_cons_of_mem c hc'))
    simp [deflLoop, hc, hrest]

/-- C8: a transfer none of whose denominations has an applicable
deflationary rule (disabled, absent, or failing the whitelist condition)
is passed through unchanged: the net coins equal the requested coins and
the liquidity-pool, fee-tax-pool and supply stores (the whole state) are
untouched. -/
theorem no_rule_net_unchanged (env : Env) (st : BankState)
    (from_ to_ : String) (amt : Coins) (acc : ModuleAccount)
    (hmod : env.moduleAccounts moduleName = some acc)
    (hno : ∀ c ∈ amt, ∀ r ∈ env.params.supportDeflationary,
      deflMatch r from_ to_ c.denom = false) :
    deflationaryCoins env st from_ to_ amt = (.ok amt, st) := by
  have hloop := deflLoop_no_rule env from_ to_ amt st hno
  simp [deflationaryCoins, hloop, hmod, coinsAdd, coinsSafeAdd, removeZeroCoins,
    coinsIsZero]

/-- Witness for C8: with a disabled rule for `foo`, a 100 foo transfer is
passed through whole and the pools and supply stay as they were. -/
theorem no_rule_net_unchanged_witness :
    deflationaryCoins
        ⟨⟨[], true, [⟨"foo", false, ⟨0⟩, ⟨2 * 10 ^ 17⟩, ⟨0⟩, [], ["bob"]⟩]⟩,
          fun _ => [], fun n => if n = "bank" then some ⟨"bankaddr", ["burner"]⟩ else none⟩
        ⟨[(("alice", "foo"), 500)], [("foo", 1000)], [("foo", 5)], [("foo", 7)], [], []⟩
        "alice" "bob" [⟨"foo", 100⟩] =
      (.ok [⟨"foo", 100⟩],
        ⟨[(("alice", "foo"), 500)], [("foo", 1000)], [("foo", 5)], [("foo", 7)], [], []⟩) :=
  no_rule_net_unchanged _ _ "alice" "bob" _ ⟨"bankaddr", ["burner"]⟩ (by decide)
    (by decide)

/-- Per-coin result of the deflationary index loop: the coin is unchanged
when no rule matched, otherwise its amount is reduced by the three
computed portions. -/
def deflOut (rules : List Deflationary) (from_ to_ : String) (c : Coin) : Coin :=
  match deflPortions rules from_ to_ c with
  | (false, _, _, _) => c
  | (true, b, l, f) => ⟨c.denom, c.amount - b - l - f⟩

/-- Whenever the deflationary index loop completes normally, the returned
transfer coins are exactly the input coins rewritten per-coin by
`deflOut`. -/
theorem deflLoop_ok_map (env : Env) (from_ to_ : String) :
    ∀ (amt : List Coin) (st : BankState) (amt' bs ls fs : Coins) (st' : BankState),
      deflLoop env from_ to_ amt st = (.ok (amt', bs, ls, fs), st') →
      amt' = amt.map (deflOut env.params.supportDeflationary from_ to_) := by
  intro amt
  induction amt with
  | nil =>
    intro st amt' bs ls fs st' h
    simp only [deflLoop] at h
    injection h with h1 _
    injection h1 with h2
    injection h2 with h3 _
    exact h3 ▸ rfl
  | cons c rest ih =>
    intro st amt' bs ls fs st' h
    rcases hp : deflPortions env.params.supportDeflationary from_ to_ c with ⟨isDefl, b, l, f⟩
    simp only [deflLoop, hp] at h
    cases isDefl with
    | false =>
      rw [if_pos (by simp)] at h
      rcases hrec : deflLoop env from_ to_ rest st with ⟨res, st''⟩
      rw [hrec] at h
      cases res with
      | ok a =>
        rcases a with ⟨amt'', bs', ls', fs'⟩
        injection h with h1 h2
        injection h1 with h3
        injection h3 with h4 _
        have hmap := ih st amt'' bs' ls' fs' st'' hrec
        rw [List.map_cons, ← h4, ← hmap]
        simp [deflOut, hp]
      | err e => injection h with h1 _; cases h1
      | fatal k => injection h with h1 _; cases h1
    | true =>
      rw [if_neg (by simp)] at h
      simp only [newCoin] at h
      by_cases hb : (validDenom c.denom && decide (0 ≤ b)) = true
      · rw [if_pos hb] at h
        by_cases hl : (validDenom c.denom && decide (0 ≤ l)) = true
        · rw [if_pos hl] at h
          by_cases hf : (validDenom c.denom && decide (0 ≤ f)) = true
          · rw [if_pos hf] at h
            by_cases hn : (validDenom c.denom && decide (0 ≤ c.amount - b - l - f)) = true
            · rw [if_pos hn] at h
              rcases hrec : deflLoop env from_ to_ rest
                  (if 0 < f then
                    setFeeTaxPool
                      (if 0 < l then setLiquidityPool st (getLiquidityPool st c.denom) else st)
                      (getFeeTaxPool
                        (if 0 < l then setLiquidityPool st (getLiquidityPool st c.denom) else st)
                        c.denom)
                  else
                    (if 0 < l then setLiquidityPool st (getLiquidityPool st c.denom) else st))
                with ⟨res, st''⟩
              rw [hrec] at h
              cases res with
              | ok a =>
                rcases a with ⟨amt'', bs', ls', fs'⟩
                injection h with h1 h2
                injection h1 with h3
                injection h3 with h4 _
                have hmap := ih _ amt'' bs' ls' fs' st'' hrec
                rw [List.map_cons, ← h4, ← hmap]
                simp [deflOut, hp]
              | err e => injection h with h1 _; cases h1
              | fatal k => injection h with h1 _; cases h1
            · rw [if_neg hn] at h; injection h with h1 _; cases h1
          · rw [if_neg hf] at h; injection h with h1 _; cases h1
        · rw [if_neg hl] at h; injection h with h1 _; cases h1
      · rw [if_neg hb] at h; injection h with h1 _; cases h1

/-- A normal completion of the deflationary split returns exactly the
coins computed by its index loop. -/
theorem deflationaryCoins_ok_loop (env : Env) (st : BankState)
    (from_ to_ : String) (amt amt'' : Coins) (st' : BankState)
    (h : deflationaryCoins env st from_ to_ amt = (.ok amt'', st')) :
    ∃ bs ls fs st1, deflLoop env from_ to_ amt st = (.ok (amt'', bs, ls, fs), st1) := by
  unfold deflationaryCoins at h
  rcases hloop : deflLoop env from_ to_ amt st with ⟨res, st1⟩
  rw [hloop] at h
  cases res with
  | err e => simp at h
  | fatal k => simp at h
  | ok a =>
    rcases a with ⟨amt', bs, ls, fs⟩
    refine ⟨bs, ls, fs, st1, ?_⟩
    have hs : amt' = amt'' := by
      cases hmod : env.moduleAccounts moduleName with
      | none => rw [hmod] at h; simp at h
      | some acc =>
        rw [hmod] at h
        dsimp only at h
        by_cases hz : coinsIsZero (coinsAdd (coinsAdd bs ls) fs) = true
        · rw [if_pos hz] at h
          simp only [Prod.mk.injEq, Res.ok.injEq] at h
          exact h.1
        · rw [if_neg hz] at h
          rcases hadd : addCoins st1 acc.address (coinsAdd (coinsAdd bs ls) fs)
            with ⟨res2, st2⟩
          rw [hadd] at h
          cases res2 with
          | err e => simp at h
          | fatal k => simp at h
          | ok u =>
            dsimp only at h
            by_cases hbz : coinsIsZero bs = true
            · rw [if_pos hbz] at h
              simp only [Prod.mk.injEq, Res.ok.injEq] at h
              exact h.1
            · rw [if_neg hbz] at h
              rcases hburn : burnCoins env st2 moduleName bs with ⟨res3, st3⟩
              rw [hburn] at h
              cases res3 with
              | err e => simp at h
              | fatal k => simp at h
              | ok u2 =>
                simp only [Prod.mk.injEq, Res.ok.injEq] at h
                exact h.1
    rw [hs]

/-- C4: for a transferred coin with a matching (enabled,
whitelist-satisfying) deflationary rule, the computed portions satisfy
burn + liquidity + feeTax + net = amount exactly, where net is the
amount of that denomination in the coins credited to the recipient. -/
theorem defl_split_sum_exact (env : Env) (st st' : BankState)
    (from_ to_ : String) (amt amt'' : Coins) (c : Coin) (b l f : Int)
    (hrun : deflationaryCoins env st from_ to_ amt = (.ok amt'', st'))
    (hc : c ∈ amt)
    (hp : deflPortions env.params.supportDeflationary from_ to_ c = (true, b, l, f)) :
    ∃ c', c' ∈ amt'' ∧ c'.denom = c.denom ∧ b + l + f + c'.amount = c.amount := by
  obtain ⟨bs, ls, fs, st1, hloop⟩ :=
    deflationaryCoins_ok_loop env st from_ to_ amt amt'' st' hrun
  have hmap := deflLoop_ok_map env from_ to_ amt st amt'' bs ls fs st1 hloop
  refine ⟨deflOut env.params.supportDeflationary from_ to_ c, ?_, ?_, ?_⟩
  · rw [hmap]
    exact List.mem_map_of_mem _ hc
  · simp [deflOut, hp]
  · simp [deflOut, hp]

/-- A deflationary rule on `foo` whose three percentages differ
(10%, 20%, 30%), with a whitelisted recipient. -/
def ruleFoo : Deflationary :=
  ⟨"foo", true, ⟨10 ^ 17⟩, ⟨2 * 10 ^ 17⟩, ⟨3 * 10 ^ 17⟩, [], ["bob"]⟩

/-- Environment with `ruleFoo` active and a bank module account holding
the burner permission. -/
def envFoo : Env :=
  { params := { sendEnabled := [], defaultSendEnabled := true, supportDeflationary := [ruleFoo] },
    locked := fun _ => [],
    moduleAccounts := fun n => if n = "bank" then some ⟨"bankaddr", ["burner"]⟩ else none }

/-- Start state: alice holds 500 foo, supply 1000, liquidity pool 5,
fee-tax pool 7. -/
def stFoo : BankState :=
  ⟨[(("alice", "foo"), 500)], [("foo", 1000)], [("foo", 5)], [("foo", 7)], [], []⟩

/-- State after the module account has been credited with the three
20-foo portions. -/
def stFooB : BankState :=
  ⟨[(("alice", "foo"), 500), (("bankaddr", "foo"), 60)], [("foo", 1000)],
   [("foo", 5)], [("foo", 7)], [], []⟩

/-- State after the 20-foo burn: module balance 40, supply 980; the
pools still hold their initial 5 and 7. -/
def stFooF : BankState :=
  ⟨[(("alice", "foo"), 500), (("bankaddr", "foo"), 40)], [("foo", 980)],
   [("foo", 5)], [("foo", 7)], [], []⟩

/-- Concrete evaluation of the deflationary split of 100 foo from alice
to bob under `ruleFoo`, assembled from the evaluation of each step. -/
theorem deflationaryCoins_eval_foo :
    deflationaryCoins envFoo stFoo "alice" "bob" [⟨"foo", 100⟩] =
      (.ok [⟨"foo", 40⟩], stFooF) := by
  have h1 : deflLoop envFoo "alice" "bob" [⟨"foo", 100⟩] stFoo =
      (.ok ([⟨"foo", 40⟩], [⟨"foo", 20⟩], [⟨"foo", 20⟩], [⟨"foo", 20⟩]), stFoo) := by
    decide
  have h5 : envFoo.moduleAccounts moduleName = some ⟨"bankaddr", ["burner"]⟩ := by decide
  have h4 : coinsAdd (coinsAdd [(⟨"foo", 20⟩ : Coin)] [⟨"foo", 20⟩]) [⟨"foo", 20⟩] =
      [⟨"foo", 60⟩] := by decide
  have hz : coinsIsZero [(⟨"foo", 60⟩ : Coin)] = false := by decide
  have h2 : addCoins stFoo "bankaddr" [⟨"foo", 60⟩] = (.ok (), stFooB) := by decide
  have hbz : coinsIsZero [(⟨"foo", 20⟩ : Coin)] = false := by decide
  have h3 : burnCoins envFoo stFooB moduleName [⟨"foo", 20⟩] = (.ok (), stFooF) := by decide
  simp only [deflationaryCoins, h1, h5, h4, hz, h2, hbz, h3, Bool.false_eq_true,
    if_false]

/-- Witness for C4: 100 foo under `ruleFoo` is split into computed
portions 20/20/20 and a net of 40, which sum back to 100. -/
theorem defl_split_sum_exact_witness :
    ∃ c', c' ∈ [(⟨"foo", 40⟩ : Coin)] ∧ c'.denom = "foo" ∧
      20 + 20 + 20 + c'.amount = (100 : Int) :=
  defl_split_sum_exact envFoo stFoo stFooF "alice" "bob" [⟨"foo", 100⟩]
    [⟨"foo", 40⟩] ⟨"foo", 100⟩ 20 20 20
    deflationaryCoins_eval_foo (by decide) (by decide)

/-- Environment with no deflationary rules and no module accounts. -/
def envPlain : Env :=
  ⟨⟨[], true, []⟩, fun _ => [], fun _ => none⟩

/-- State in which alice holds 5 uaaa and nothing else. -/
def stC3 : BankState := ⟨[(("alice", "uaaa"), 5)], [], [], [], [], []⟩

/-- Counterexample to C3: a two-denomination send in which only the
second denomination is short returns `InsufficientFunds` but leaves the
first denomination already debited — the balance store differs from the
pre-call state. -/
theorem send_insufficient_multi_denom_mutates :
    sendCoins envPlain stC3 "alice" "bob" [⟨"uaaa", 1⟩, ⟨"ubbb", 1⟩] =
      (.err .insufficientFunds, ⟨[(("alice", "uaaa"), 4)], [], [], [], [], []⟩) ∧
    (⟨[(("alice", "uaaa"), 4)], [], [], [], [], []⟩ : BankState) ≠ stC3 := by
  decide

/-- C3 (amended): `SendCoins` with an insufficient spendable balance
returns `InsufficientFunds`; all stores are left exactly as before the
call whenever the shortage is on the first coin processed (in
particular for every single-denomination send).  Coins sorted before the
first insufficient one remain debited. -/
theorem send_insufficient_first_coin_unchanged (env : Env) (st : BankState)
    (from_ to_ : String) (c : Coin) (rest : Coins)
    (hv : coinsIsValid (c :: rest) = true)
    (hlk0 : 0 ≤ coinsAmountOf (env.locked from_) c.denom)
    (hlkb : coinsAmountOf (env.locked from_) c.denom ≤ (getBalance st from_ c.denom).amount)
    (hshort : (getBalance st from_ c.denom).amount
        - coinsAmountOf (env.locked from_) c.denom < c.amount) :
    sendCoins env st from_ to_ (c :: rest) = (.err .insufficientFunds, st) := by
  have hd : validDenom c.denom = true := by
    have h := hv
    simp [coinsIsValid] at h
    exact h.1.1
  have hnc : newCoin c.denom (coinsAmountOf (env.locked from_) c.denom) =
      .ok ⟨c.denom, coinsAmountOf (env.locked from_) c.denom⟩ := by
    simp [newCoin, hd, hlk0]
  have hcs : coinSub (getBalance st from_ c.denom)
      ⟨c.denom, coinsAmountOf (env.locked from_) c.denom⟩ =
      .ok ⟨c.denom, (getBalance st from_ c.denom).amount
        - coinsAmountOf (env.locked from_) c.denom⟩ := by
    rw [coinSub]
    rw [if_pos (by rfl)]
    rw [if_neg (show ¬((getBalance st from_ c.denom).amount
      - coinsAmountOf (env.locked from_) c.denom < 0) by omega)]
    rfl
  have hcmp : compare c.denom c.denom = Ordering.eq := compare_eq_iff_eq.mpr rfl
  have hne : ¬ ((getBalance st from_ c.denom).amount
      - coinsAmountOf (env.locked from_) c.denom + -c.amount = 0) := by omega
  have hneg : (getBalance st from_ c.denom).amount
      - coinsAmountOf (env.locked from_) c.denom + -c.amount < 0 := by omega
  have hss : (coinsSafeSub
      [⟨c.denom, (getBalance st from_ c.denom).amount
        - coinsAmountOf (env.locked from_) c.denom⟩] [c]).2 = true := by
    simp [coinsSafeSub, coinsNegative, coinsSafeAdd, coinsSafeAddAux, hcmp, hne,
      removeZeroCoins, coinsIsAnyNegative, hneg]
  have hsub : subUnlockedCoins env st from_ (c :: rest) = (.err .insufficientFunds, st) := by
    unfold subUnlockedCoins
    rw [if_neg (by simp [hv])]
    simp only [subUnlockedCoinsLoop, hnc, hcs, hss, if_true]
  simp [sendCoins, hsub]

/-- Witness for C3 (amended): a single-coin send of 10 foo with only 5
foo spendable errors and leaves the state untouched. -/
theorem send_insufficient_first_coin_unchanged_witness :
    sendCoins envPlain ⟨[(("alice", "foo"), 5)], [], [], [], [], []⟩
        "alice" "bob" [⟨"foo", 10⟩] =
      (.err .insufficientFunds, ⟨[(("alice", "foo"), 5)], [], [], [], [], []⟩) :=
  send_insufficient_first_coin_unchanged envPlain
    ⟨[(("alice", "foo"), 5)], [], [], [], [], []⟩ "alice" "bob" ⟨"foo", 10⟩ []
    (by decide) (by decide) (by decide) (by decide)

/-- Counterexample to C10: an `InputOutputCoins` call with no outputs
passes validation, its (empty) debit phase succeeds, the bank module
account does not exist — and yet the call returns successfully instead
of panicking: the module-account lookup sits inside the per-output split
and is never reached without an output. -/
theorem iocoins_no_outputs_no_fatal :
    inputOutputCoins envPlain ⟨[], [], [], [], [], []⟩ [] [] =
      (.ok (), ⟨[], [], [], [], [], []⟩) := by
  decide

/-- C10 (amended): when the bank module account does not exist, every
`SendCoins` call whose debit succeeds, and every `InputOutputCoins` call
whose debit phase succeeds and which processes at least one output,
panics with the unknown-address error — even when no deflationary rule
applies to any transferred denomination. -/
theorem module_account_lookup_unconditional :
    (∀ (env : Env) (st st1 : BankState) (from_ to_ : String) (amt : Coins),
      env.moduleAccounts moduleName = none →
      subUnlockedCoins env st from_ amt = (.ok (), st1) →
      (∀ c ∈ amt, ∀ r ∈ env.params.supportDeflationary,
        deflMatch r from_ to_ c.denom = false) →
      sendCoins env st from_ to_ amt = (.fatal .unknownModuleAccount, st1))
    ∧ (∀ (env : Env) (st st1 : BankState) (inputs : List Input)
        (o : Output) (outs : List Output),
      env.moduleAccounts moduleName = none →
      validateInputsOutputs inputs (o :: outs) = none →
      inputsLoop env inputs st = (.ok (), st1) →
      o.address ≠ "" →
      (∀ c ∈ o.coins, ∀ r ∈ env.params.supportDeflationary,
        deflMatch r "" o.address c.denom = false) →
      inputOutputCoins env st inputs (o :: outs) =
        (.fatal .unknownModuleAccount, st1)) := by
  constructor
  · intro env st st1 from_ to_ amt hmod hsub hno
    have hloop := deflLoop_no_rule env from_ to_ amt st1 hno
    simp [sendCoins, hsub, deflationaryCoins, hloop, hmod]
  · intro env st st1 inputs o outs hmod hval hins haddr hno
    have hloop := deflLoop_no_rule env "" o.address o.coins st1 hno
    have hdec : accAddressFromBech32 o.address = .ok o.address := by
      simp [accAddressFromBech32, haddr]
    simp [inputOutputCoins, hval, hins, outputsLoop, hdec, deflationaryCoins,
      hloop, hmod]

/-- Witness for C10 (amended): with the module account absent, a plain
1-foo send and a one-input/one-output multi-send both panic with the
unknown-address error after their debit succeeds. -/
theorem module_account_lookup_unconditional_witness :
    sendCoins envPlain ⟨[(("alice", "foo"), 5)], [], [], [], [], []⟩
        "alice" "bob" [⟨"foo", 1⟩] =
      (.fatal .unknownModuleAccount, ⟨[(("alice", "foo"), 4)], [], [], [], [], []⟩)
    ∧ inputOutputCoins envPlain ⟨[(("alice", "foo"), 5)], [], [], [], [], []⟩
        [⟨"alice", [⟨"foo", 1⟩]⟩] [⟨"bob", [⟨"foo", 1⟩]⟩] =
      (.fatal .unknownModuleAccount, ⟨[(("alice", "foo"), 4)], [], [], [], [], []⟩) := by
  constructor
  · exact module_account_lookup_unconditional.1 envPlain
      ⟨[(("alice", "foo"), 5)], [], [], [], [], []⟩
      ⟨[(("alice", "foo"), 4)], [], [], [], [], []⟩ "alice" "bob" [⟨"foo", 1⟩]
      (by decide) (by decide) (by decide)
  · exact module_account_lookup_unconditional.2 envPlain
      ⟨[(("alice", "foo"), 5)], [], [], [], [], []⟩
      ⟨[(("alice", "foo"), 4)], [], [], [], [], []⟩
      [⟨"alice", [⟨"foo", 1⟩]⟩] ⟨"bob", [⟨"foo", 1⟩]⟩ []
      (by decide) (by decide) (by decide) (by decide) (by decide)

/-- C1 (code bug): with `ruleFoo` (burn 10%, liquidity 20%, fee-tax 30%)
the rule loop computes all three portions of a 100-foo transfer from the
liquidity percentage — (20, 20, 20) — whereas multiplying by the rule's
own burn and fee-tax percentages (with the same decimal arithmetic)
yields 10 and 30. -/
theorem burn_and_feetax_use_liquidity_percent :
    deflPortions [ruleFoo] "alice" "bob" ⟨"foo", 100⟩ = (true, 20, 20, 20)
    ∧ truncateInt (decMul (newDecFromInt 100) ruleFoo.burnPercent) = 10
    ∧ truncateInt (decMul (newDecFromInt 100) ruleFoo.feeTaxPercent) = 30 := by
  decide

/-- C2 (code bug): the successful 100-foo split under `ruleFoo` computes
positive liquidity and fee-tax portions (20 each), yet the persisted
liquidity pool stays at 5 and the fee-tax pool at 7 — the addition's
result is discarded before the write-back. -/
theorem pools_not_credited :
    deflationaryCoins envFoo stFoo "alice" "bob" [⟨"foo", 100⟩] =
      (.ok [⟨"foo", 40⟩], stFooF)
    ∧ stFoo.liquidityPool = [("foo", 5)] ∧ stFooF.liquidityPool = [("foo", 5)]
    ∧ stFoo.feeTaxPool = [("foo", 7)] ∧ stFooF.feeTaxPool = [("foo", 7)] :=
  ⟨deflationaryCoins_eval_foo, by decide, by decide, by decide, by decide⟩

/-- Genesis input for C6: one account holding 100 foo, a liquidity pool
of 10 foo, and a stated supply of 110 foo — exactly the sum of account
balances and pool balances. -/
def genC6 : GenesisState :=
  ⟨[⟨"acc1", [⟨"foo", 100⟩]⟩], [⟨"foo", 110⟩], [⟨"foo", 10⟩], [], []⟩

/-- C6 (code bug): although the stated genesis supply equals the sum of
account balances plus liquidity-pool plus fee-tax-pool balances, the
genesis load panics: the pool addition's result is discarded, so the check
compares the supply against account balances alone. -/
theorem genesis_supply_check_ignores_pools :
    coinsIsEqual genC6.supply
        (coinsAdd (coinsAdd (genC6.balances.foldl (fun acc b => coinsAdd acc b.coins) [])
          genC6.liquidityPool) genC6.feeTaxPool) = true
    ∧ (initGenesis envPlain ⟨[], [], [], [], [], []⟩ genC6).1 = .fatal .genesisInvalid := by
  decide
